import Mathlib

/-!
Verification development for the Vikunja Telegram bot (`vikunja_bot.py`).

The Python source is shallowly embedded as follows.

* Text is `List Char`.  Python's regex character classes are modelled on the
  ASCII range (`\s`, `\d`, `\w`, `str.lower()`), which covers every literal
  appearing in the source's patterns.
* Python `datetime` values are modelled by their rata-die day number
  (`Nat`, epoch 0000-03-01 of the proleptic Gregorian calendar), the same
  representation `datetime.date` is isomorphic to.  `datetime(y, m, d)`
  validation, `timedelta` addition with its `OverflowError` behaviour, and
  `strftime('%Y-%m-%d')` are embedded explicitly; exceptions are modelled by
  `Except PyErr`.
* Each regular expression of the source is embedded as a dedicated matcher
  that reproduces `re.search`/`re.sub`/`re.findall` scanning (leftmost match,
  ordered alternation, greedy quantifiers with the backtracking relevant to
  the concrete pattern).
* HTTP calls are modelled as explicit outcome parameters (success payloads,
  non-200 statuses, raised transport exceptions).
-/

/-! ### Character classes (ASCII models of Python's `\s`, `\d`, `\w`, `str.lower`) -/

def pyIsSpace (c : Char) : Bool :=
  c.toNat == 32 || c.toNat == 9 || c.toNat == 10 || c.toNat == 13 ||
  c.toNat == 11 || c.toNat == 12

def pyIsDigit (c : Char) : Bool :=
  48 ≤ c.toNat && c.toNat ≤ 57

def isWordChar (c : Char) : Bool :=
  pyIsDigit c || (65 ≤ c.toNat && c.toNat ≤ 90) || (97 ≤ c.toNat && c.toNat ≤ 122) ||
  c.toNat == 95

def lowerChar (c : Char) : Char :=
  if 65 ≤ c.toNat ∧ c.toNat ≤ 90 then Char.ofNat (c.toNat + 32) else c

/-- `str.lower()` on a whole string. -/
def lowerStr (s : String) : String :=
  ⟨s.data.map lowerChar⟩

def natOfDigits (ds : List Char) : Nat :=
  ds.foldl (fun a c => 10 * a + (c.toNat - 48)) 0

/-! ### Calendar: the fragment of `datetime` used by the source.

A date is carried as its rata-die number `rd : Nat` (days since 0000-03-01,
proleptic Gregorian).  `Date` triples appear only at the two boundaries where
the source mentions components: the `datetime(year, month, day)` constructor
and `strftime('%Y-%m-%d')`. -/

structure Date where
  year : Nat
  month : Nat
  day : Nat
deriving DecidableEq

def isLeap (y : Nat) : Bool :=
  (y % 4 == 0 && y % 100 != 0) || y % 400 == 0

def daysInMonth (y m : Nat) : Nat :=
  if m = 2 then (if isLeap y then 29 else 28)
  else if m = 4 ∨ m = 6 ∨ m = 9 ∨ m = 11 then 30 else 31

/-- Rata-die number of a (valid) date; days-from-civil algorithm. -/
def toRD (dt : Date) : Nat :=
  let y := if dt.month ≤ 2 then dt.year - 1 else dt.year
  let era := y / 400
  let yoe := y % 400
  let mp := if 2 < dt.month then dt.month - 3 else dt.month + 9
  let doy := (153 * mp + 2) / 5 + dt.day - 1
  let doe := yoe * 365 + yoe / 4 - yoe / 100 + doy
  era * 146097 + doe

/-- Inverse of `toRD`; civil-from-days algorithm. -/
def fromRD (z : Nat) : Date :=
  let era := z / 146097
  let doe := z % 146097
  let yoe := (doe - doe / 1460 + doe / 36524 - doe / 146096) / 365
  let doy := doe - (365 * yoe + yoe / 4 - yoe / 100)
  let mp := (5 * doy + 2) / 153
  let d := doy - (153 * mp + 2) / 5 + 1
  let m := if mp < 10 then mp + 3 else mp - 9
  { year := yoe + era * 400 + (if m ≤ 2 then 1 else 0), month := m, day := d }

/-- Rata-die number of `datetime.max.date()` = 9999-12-31. -/
def maxRD : Nat := toRD ⟨9999, 12, 31⟩

/-- `date.weekday()`: Monday = 0. (0000-03-01 was a Wednesday = 2.) -/
def weekdayOf (rd : Nat) : Nat := (rd + 2) % 7

/-- Python exceptions the embedded code can raise. -/
inductive PyErr
  | valueError
  | overflowError
deriving DecidableEq

/-- `datetime.now() + timedelta(days = n)`, with `timedelta`'s own overflow
bound (`days ≤ 999999999`) and the `datetime.max` bound, both of which raise
`OverflowError` in Python. -/
def addDaysE (today n : Nat) : Except PyErr Nat :=
  if 999999999 < n then .error .overflowError
  else if maxRD < today + n then .error .overflowError
  else .ok (today + n)

/-- The `datetime(year, month, day)` constructor: validates ranges and raises
`ValueError` otherwise. -/
def mkDateE (y m d : Nat) : Except PyErr Nat :=
  if 1 ≤ y ∧ y ≤ 9999 ∧ 1 ≤ m ∧ m ≤ 12 ∧ 1 ≤ d ∧ d ≤ daysInMonth y m then
    .ok (toRD ⟨y, m, d⟩)
  else .error .valueError

def padNum (w n : Nat) : List Char :=
  let s := Nat.toDigits 10 n
  List.replicate (w - s.length) '0' ++ s

/-- `strftime('%Y-%m-%d')`. -/
def fmtDate (rd : Nat) : List Char :=
  let d := fromRD rd
  padNum 4 d.year ++ '-' :: (padNum 2 d.month ++ '-' :: padNum 2 d.day)

instance {ε α : Type} [DecidableEq ε] [DecidableEq α] : DecidableEq (Except ε α) :=
  fun a b =>
    match a, b with
    | .ok x, .ok y =>
      if h : x = y then .isTrue (by rw [h]) else .isFalse (fun hc => h (Except.ok.inj hc))
    | .error x, .error y =>
      if h : x = y then .isTrue (by rw [h]) else .isFalse (fun hc => h (Except.error.inj hc))
    | .ok _, .error _ => .isFalse (fun hc => Except.noConfusion hc)
    | .error _, .ok _ => .isFalse (fun hc => Except.noConfusion hc)

/-! ### Matchers for the individual regular expressions.

Each matcher takes the character preceding the current position (for `\b`)
and the text from the current position on, and returns the captured data
together with the length of the matched span. -/

/-- `\S+` : a maximal non-empty run of non-whitespace. -/
def nonspaceTok (t : List Char) : Option (List Char × Nat) :=
  let tok := t.takeWhile (fun c => !(pyIsSpace c))
  if tok.isEmpty then none else some (tok, tok.length)

/-- `q([^q]+)q` for a quote character `q`. -/
def quotedTok (q : Char) (t : List Char) : Option (List Char × Nat) :=
  match t with
  | [] => none
  | c :: u =>
    if c = q then
      let grp := u.takeWhile (fun x => x != q)
      if grp.isEmpty then none
      else if (u.drop grp.length).head? = some q then some (grp, grp.length + 2)
      else none
    else none

/-- `(?:"([^"]+)"|'([^']+)'|(\S+))` — the ordered alternation shared by the
label and project patterns. -/
def matchTok (t : List Char) : Option (List Char × Nat) :=
  match quotedTok '"' t with
  | some r => some r
  | none =>
    match quotedTok '\'' t with
    | some r => some r
    | none => nonspaceTok t

/-- `mk(?:"([^"]+)"|'([^']+)'|(\S+))` at the current position, for a marker
character `mk` (`*` for labels, `+` for projects). -/
def mMarked (mk : Char) (l : List Char) : Option (List Char × Nat) :=
  match l with
  | [] => none
  | c :: t =>
    if c = mk then
      match matchTok t with
      | some (g, n) => some (g, n + 1)
      | none => none
    else none

def matchLabelAt (l : List Char) : Option (List Char × Nat) := mMarked '*' l

def mProj (_ : Option Char) (l : List Char) : Option (List Char × Nat) := mMarked '+' l

/-- `!([1-5])` at the current position. -/
def mPrio (_ : Option Char) (l : List Char) : Option (Nat × Nat) :=
  match l with
  | a :: b :: _ =>
    if a = '!' ∧ 49 ≤ b.toNat ∧ b.toNat ≤ 53 then some (b.toNat - 48, 2) else none
  | _ => none

/-- Case-insensitive literal-prefix test. -/
def ciStarts : List Char → List Char → Bool
  | [], _ => true
  | _ :: _, [] => false
  | w :: ws, c :: cs => ((lowerChar c).toNat == (lowerChar w).toNat) && ciStarts ws cs

def headIsWord : List Char → Bool
  | [] => false
  | c :: _ => isWordChar c

def prevIsWord : Option Char → Bool
  | none => false
  | some c => isWordChar c

/-- `\b w \b` (case-insensitive) at the current position, for a literal `w`
whose first and last characters are word characters (true of every date word
in the source). -/
def mWord (w : List Char) (prev : Option Char) (l : List Char) : Option (Unit × Nat) :=
  if prevIsWord prev then none
  else if ciStarts w l ∧ headIsWord (l.drop w.length) = false then some ((), w.length)
  else none

/-- `in (\d+) unit s?` (case-insensitive, no word boundaries) at the current
position; returns the captured number and the span length. -/
def mIn (unit : List Char) (_ : Option Char) (l : List Char) : Option (Nat × Nat) :=
  if ciStarts ("in ".data) l then
    let r1 := l.drop 3
    let ds := r1.takeWhile pyIsDigit
    if ds.isEmpty then none
    else
      match r1.drop ds.length with
      | ' ' :: r3 =>
        if ciStarts unit r3 then
          let r4 := r3.drop unit.length
          let extra :=
            match r4 with
            | c :: _ => if (lowerChar c).toNat == 115 then 1 else 0
            | [] => 0
          some (natOfDigits ds, 3 + ds.length + 1 + unit.length + extra)
        else none
      | _ => none
  else none

def mInDays : Option Char → List Char → Option (Nat × Nat) := mIn ("day".data)

def mInWeeks : Option Char → List Char → Option (Nat × Nat) := mIn ("week".data)

/-- Exactly `k` digits at the front of `l`, as a number. -/
def digitsN (k : Nat) (l : List Char) : Option Nat :=
  if (l.take k).length = k ∧ (l.take k).all pyIsDigit then some (natOfDigits (l.take k)) else none

/-- One backtracking branch of `(\d{1,2})/(\d{1,2})/(\d{4})` with fixed digit
counts `dn`, `mn` for the first two groups. -/
def slashTry (dn mn : Nat) (l : List Char) : Option ((Nat × Nat × Nat) × Nat) :=
  match digitsN dn l with
  | none => none
  | some dv =>
    match l.drop dn with
    | '/' :: r1 =>
      match digitsN mn r1 with
      | none => none
      | some mv =>
        match r1.drop mn with
        | '/' :: r2 =>
          match digitsN 4 r2 with
          | none => none
          | some yv => some ((dv, mv, yv), dn + 1 + mn + 1 + 4)
        | _ => none
    | _ => none

/-- `(\d{1,2})/(\d{1,2})/(\d{4})` at the current position, with the greedy
backtracking order of `\d{1,2}` (2 digits preferred over 1, leftmost group
backtracks last). -/
def mSlash (_ : Option Char) (l : List Char) : Option ((Nat × Nat × Nat) × Nat) :=
  match slashTry 2 2 l with
  | some r => some r
  | none =>
    match slashTry 2 1 l with
    | some r => some r
    | none =>
      match slashTry 1 2 l with
      | some r => some r
      | none => slashTry 1 1 l

/-! ### `re` scanning -/

/-- `re.search` + `re.sub(pattern, '', text, 1)` in one pass: find the
leftmost match of the matcher `M`, return its captures and the text with the
matched span removed.  `prev` is the character before the current position
(for `\b`). -/
def searchM {γ : Type} (M : Option Char → List Char → Option (γ × Nat)) :
    Option Char → List Char → Option (γ × List Char)
  | prev, [] =>
    match M prev [] with
    | some (g, _) => some (g, [])
    | none => none
  | prev, c :: rest =>
    match M prev (c :: rest) with
    | some (g, n) => some (g, (c :: rest).drop n)
    | none =>
      match searchM M (some c) rest with
      | some (g, r) => some (g, c :: r)
      | none => none

/-- `re.findall` + `re.sub(pattern, '', text)` for the label pattern: collect
every non-overlapping match left to right and remove them all.  Fuelled
structural recursion; `fuel = length` is always sufficient because every
match consumes at least one character. -/
def scanLabelsF : Nat → List Char → List (List Char) × List Char
  | 0, l => ([], l)
  | _ + 1, [] => ([], [])
  | fuel + 1, c :: rest =>
    match matchLabelAt (c :: rest) with
    | some (g, n) =>
      let p := scanLabelsF fuel ((c :: rest).drop n)
      (g :: p.1, p.2)
    | none =>
      let p := scanLabelsF fuel rest
      (p.1, c :: p.2)

def scanLabels (l : List Char) : List (List Char) × List Char :=
  scanLabelsF l.length l

/-- `' '.join(text.split())` after the leading whitespace has been dropped. -/
def collapseWsGo : List Char → List Char
  | [] => []
  | [c] => if pyIsSpace c then [] else [c]
  | c :: d :: rest =>
    if pyIsSpace c then
      (if pyIsSpace d then collapseWsGo (d :: rest) else ' ' :: collapseWsGo (d :: rest))
    else c :: collapseWsGo (d :: rest)

/-- `' '.join(text.split())`: collapse whitespace runs to single spaces and
trim. -/
def collapseWs (l : List Char) : List Char :=
  collapseWsGo (l.dropWhile pyIsSpace)

/-! ### The quick-add parser (`parse_vikunja_task_format`, lines 257-315) -/

structure ParsedTask where
  title : List Char
  labels : List (List Char)
  priority : Option Nat
  project : Option (List Char)
  due_date : Option (List Char)
  repeatOpt : Option (List Char)
deriving DecidableEq

/-- `get_next_weekday` (lines 287-290): `days_ahead = weekday - now.weekday();
if days_ahead <= 0: days_ahead += 7`. -/
def nextOffset (today w : Nat) : Nat :=
  let wd := weekdayOf today
  if w ≤ wd then w + 7 - wd else w - wd

/-- `get_next_weekday`'s returned date, `(now + timedelta(days_ahead)).date()`. -/
def get_next_weekday (today w : Nat) : Except PyErr Nat :=
  addDaysE today (nextOffset today w)

/-- One entry of the `date_patterns` loop (lines 307-312): if the search
matched, call the pattern's function (which may raise) and remove the span;
otherwise fall through to the next pattern. -/
def applyPat {γ : Type} (s : Option (γ × List Char)) (f : γ → Except PyErr Nat)
    (k : Except PyErr (Option (List Char) × List Char)) :
    Except PyErr (Option (List Char) × List Char) :=
  match s with
  | some (g, r) =>
    match f g with
    | .ok rd => .ok (some (fmtDate rd), r)
    | .error e => .error e
  | none => k

/-- The ordered `date_patterns` dict of lines 292-305, evaluated in insertion
order, stopping at the first pattern that matches anywhere in the text. -/
def dateStep (today : Nat) (l : List Char) : Except PyErr (Option (List Char) × List Char) :=
  applyPat (searchM (mWord ("today".data)) none l) (fun _ => .ok today)
  (applyPat (searchM (mWord ("tomorrow".data)) none l) (fun _ => addDaysE today 1)
  (applyPat (searchM (mWord ("next monday".data)) none l) (fun _ => get_next_weekday today 0)
  (applyPat (searchM (mWord ("next tuesday".data)) none l) (fun _ => get_next_weekday today 1)
  (applyPat (searchM (mWord ("next wednesday".data)) none l) (fun _ => get_next_weekday today 2)
  (applyPat (searchM (mWord ("next thursday".data)) none l) (fun _ => get_next_weekday today 3)
  (applyPat (searchM (mWord ("next friday".data)) none l) (fun _ => get_next_weekday today 4)
  (applyPat (searchM (mWord ("next saturday".data)) none l) (fun _ => get_next_weekday today 5)
  (applyPat (searchM (mWord ("next sunday".data)) none l) (fun _ => get_next_weekday today 6)
  (applyPat (searchM mInDays none l) (fun n => addDaysE today n)
  (applyPat (searchM mInWeeks none l) (fun n => addDaysE today (7 * n))
  (applyPat (searchM mSlash none l) (fun g => mkDateE g.2.2 g.2.1 g.1)
  (.ok (none, l)))))))))))))

/-- `re.search` result applied as an extraction step: the capture plus the
text with the span removed, or no capture and the unchanged text. -/
def optSub {γ : Type} (s : Option (γ × List Char)) (t : List Char) : Option γ × List Char :=
  match s with
  | some (g, r) => (some g, r)
  | none => (none, t)

/-- `parse_vikunja_task_format` (lines 257-315).  `today` is the rata-die
number of `datetime.now().date()`; a raised `ValueError`/`OverflowError` is
the `.error` case. -/
def parse_vikunja_task_format (today : Nat) (l : List Char) : Except PyErr ParsedTask :=
  let s1 := scanLabels l
  let s2 := optSub (searchM mPrio none s1.2) s1.2
  let s3 := optSub (searchM mProj none s2.2) s2.2
  match dateStep today s3.2 with
  | .error e => .error e
  | .ok (due, t4) =>
    .ok { title := collapseWs t4, labels := s1.1, priority := s2.1, project := s3.1,
          due_date := due, repeatOpt := none }

/-! ### Project cache (`get_all_projects_cached`, lines 177-197) -/

structure ProjectT where
  id : Nat
  title : String
deriving DecidableEq

structure CacheEntry where
  data : List ProjectT
  timestamp : Nat
deriving DecidableEq

/-- `get_all_projects_cached`: `cache` is the session's entry (`none` for the
initial empty dict), `now` the current time in seconds, `fetch` the outcome
of the one `GET /projects` call (`none` for a non-200 status or a raised
`RequestException`, both of which the source turns into `[]`).  Returns the
project list, the new cache entry, and whether a fetch was issued. -/
def get_all_projects_cached (cache : Option CacheEntry) (now : Nat)
    (fetch : Option (List ProjectT)) : List ProjectT × Option CacheEntry × Bool :=
  let fetchStep : List ProjectT × Option CacheEntry × Bool :=
    match fetch with
    | some ps => (ps, some { data := ps, timestamp := now }, true)
    | none => ([], cache, true)
  match cache with
  | some e => if now - e.timestamp < 60 then (e.data, some e, false) else fetchStep
  | none => fetchStep

/-- `get_project_by_name` (lines 199-205): first case-insensitive title
match. -/
def get_project_by_name (project_name : String) (projects : List ProjectT) : Option ProjectT :=
  projects.find? (fun p => lowerStr p.title == lowerStr project_name)

/-! ### Task aggregation (`get_active_tasks_from_projects`, lines 225-255) -/

structure TaskT where
  id : Nat
  title : String
  done : Bool
  project_id : Nat
deriving DecidableEq

/-- The JSON body of a 200 response of `GET /projects/{id}/tasks`: either a
bare list or a dict with a `tasks` key. -/
inductive TasksPayload
  | asList (tasks : List TaskT)
  | asDict (tasks : List TaskT)
deriving DecidableEq

def payloadTasks : TasksPayload → List TaskT
  | .asList ts => ts
  | .asDict ts => ts

/-- Outcome of one per-project task fetch: a raised `RequestException`, or a
response with a status code and payload. -/
inductive FetchOutcome
  | exc
  | resp (status : Nat) (payload : TasksPayload)
deriving DecidableEq

/-- The project loop of `get_active_tasks_from_projects`: accumulate the
tasks of every 200 response (tagging each with the owning project id), skip
non-200 responses, and propagate a raised exception. -/
def aggGo (fetch : Nat → FetchOutcome) : List ProjectT → Except Unit (List TaskT)
  | [] => .ok []
  | p :: ps =>
    match fetch p.id with
    | .exc => .error ()
    | .resp st payload =>
      if st = 200 then
        match aggGo fetch ps with
        | .ok rest => .ok ((payloadTasks payload).map (fun t => { t with project_id := p.id }) ++ rest)
        | .error e => .error e
      else aggGo fetch ps

/-- `get_active_tasks_from_projects` (lines 225-255): fetch every project's
tasks and keep the non-done ones.  A raised transport exception is the
`.error` case (the source has no try/except around the per-project
`requests.get`). -/
def get_active_tasks_from_projects (projects : List ProjectT) (fetch : Nat → FetchOutcome) :
    Except Unit (List TaskT) :=
  match aggGo fetch projects with
  | .ok all_tasks => .ok (all_tasks.filter (fun t => !t.done))
  | .error e => .error e

/-! ### Quick-add project resolution (`handle_plain_message`, lines 372-380) -/

/-- The `project_id` resolution of `handle_plain_message`: a parsed project
name is looked up case-insensitively (id 1 when absent from the cache); with
no parsed name the first cached project wins, id 1 when the cache is empty. -/
def resolveProjectId (parsedProject : Option String) (projects : List ProjectT) : Nat :=
  match parsedProject with
  | some name =>
    match get_project_by_name name projects with
    | some p => p.id
    | none => 1
  | none =>
    match projects with
    | p :: _ => p.id
    | [] => 1

/-! ### Pagination (`show_task_page`, lines 685-716) -/

/-- What `show_task_page` renders: the empty-list message, or a page with the
computed total, the sliced tasks, and which nav buttons exist. -/
inductive TaskPageView
  | emptyMsg
  | page (total_pages : Nat) (page_tasks : List TaskT) (hasPrev hasNext : Bool)
deriving DecidableEq

def TASKS_PER_PAGE : Nat := 5

/-- `show_task_page`: empty list short-circuits before the pagination math;
otherwise `total_pages = (len - 1) // 5 + 1`, the page is the slice
`[5p : 5p+5]`, `prev` iff `page > 0`, `next` iff `page < total_pages - 1`. -/
def show_task_page (pageNum : Nat) (active_tasks : List TaskT) : TaskPageView :=
  if active_tasks.isEmpty then .emptyMsg
  else
    let total_pages := (active_tasks.length - 1) / TASKS_PER_PAGE + 1
    let offset := pageNum * TASKS_PER_PAGE
    .page total_pages ((active_tasks.drop offset).take TASKS_PER_PAGE)
      (decide (0 < pageNum)) (decide (pageNum < total_pages - 1))

/-! ### Credential store (`delete_saved_credentials`, lines 81-102) -/

structure Cred where
  username : String
  password : String
deriving DecidableEq

/-- The persisted artifact: JSON document (chat-id keyed records) plus the
file's permission bits; `none` = no file on disk. -/
structure FileData where
  doc : List (String × Cred)
  perm : Nat
deriving DecidableEq

/-- `load_saved_credentials`: absent file loads as the empty document. -/
def load_saved_credentials : Option FileData → List (String × Cred)
  | none => []
  | some fd => fd.doc

def lookupCred (cid : String) (doc : List (String × Cred)) : Option Cred :=
  (doc.find? (fun kv => kv.1 == cid)).map (fun kv => kv.2)

/-- `delete_saved_credentials` (lines 81-102): if the record exists, delete
it; if the trimmed document is empty remove the file, otherwise rewrite it
with mode 0o600 (= 384); an absent record leaves everything untouched. -/
def delete_saved_credentials (cid : String) (fs : Option FileData) : Option FileData :=
  let credentials := load_saved_credentials fs
  if (credentials.find? (fun kv => kv.1 == cid)).isSome then
    let trimmed := credentials.filter (fun kv => kv.1 != cid)
    if trimmed.isEmpty then none
    else some { doc := trimmed, perm := 384 }
  else fs

/-! ### Due-date edit handler (`handle_task_due_date_update`, lines 831-857) -/

inductive ConvState
  | taskEditDue
  | taskListView
deriving DecidableEq

/-- Outcome of the `POST /tasks/{id}` update call. -/
inductive PostOutcome
  | exc
  | status (code : Nat)
deriving DecidableEq

/-- `handle_task_due_date_update` (lines 831-857): lowercases the input;
`'none'` clears the due date and always returns to the list view; otherwise
the text is run through the quick-add parser — a parsed date posts the update
(whose outcome, success, non-2xx or exception, never changes the returned
state) and returns to the list view, no parsed date re-prompts in the same
state, and an exception raised by the parser itself propagates. -/
def handle_task_due_date_update (today : Nat) (text : List Char) (post : PostOutcome) :
    Except PyErr ConvState :=
  let due_text := text.map lowerChar
  if due_text = ("none".data) then
    match post with
    | _ => .ok .taskListView
  else
    match parse_vikunja_task_format today due_text with
    | .error e => .error e
    | .ok parsed =>
      match parsed.due_date with
      | some _ =>
        match post with
        | _ => .ok .taskListView
      | none => .ok .taskEditDue

/-! ### Helper lemmas: characters -/

theorem pyIsSpace_iff (c : Char) :
    pyIsSpace c = true ↔
      c.toNat = 32 ∨ c.toNat = 9 ∨ c.toNat = 10 ∨ c.toNat = 13 ∨ c.toNat = 11 ∨ c.toNat = 12 := by
  simp only [pyIsSpace, Bool.or_eq_true, beq_iff_eq]
  tauto

theorem pyIsDigit_iff (c : Char) :
    pyIsDigit c = true ↔ 48 ≤ c.toNat ∧ c.toNat ≤ 57 := by
  simp [pyIsDigit]

theorem lowerChar_of_space {c : Char} (h : pyIsSpace c = true) : lowerChar c = c := by
  rw [pyIsSpace_iff] at h
  unfold lowerChar
  rw [if_neg]
  omega

theorem pyIsSpace_congr {a b : Char} (h : a.toNat = b.toNat) :
    pyIsSpace a = pyIsSpace b := by
  simp [pyIsSpace, h]

/-! ### Helper lemmas: the `starOK` invariant.

`starOK l` says every `*` in `l` is followed by whitespace or the end of the
text.  This is exactly the condition under which the label pattern cannot
match anywhere in `l`, and it is established by the label-removal pass and
preserved by every later pass. -/

def headSpaceB : List Char → Bool
  | [] => true
  | c :: _ => pyIsSpace c

def starOK : List Char → Bool
  | [] => true
  | c :: rest => (if c = '*' then headSpaceB rest else true) && starOK rest

@[simp] theorem starOK_nil : starOK [] = true := rfl

theorem starOK_cons (c : Char) (l : List Char) :
    starOK (c :: l) = ((if c = '*' then headSpaceB l else true) && starOK l) := rfl

theorem starOK_tail {c : Char} {l : List Char} (h : starOK (c :: l) = true) :
    starOK l = true := by
  rw [starOK_cons, Bool.and_eq_true] at h
  exact h.2

theorem starOK_drop {l : List Char} (n : Nat) (h : starOK l = true) :
    starOK (l.drop n) = true := by
  induction n generalizing l with
  | zero => simpa using h
  | succ n ih =>
    cases l with
    | nil => simp
    | cons c t => exact ih (starOK_tail h)

theorem starOK_cons_star {l : List Char} (h : starOK ('*' :: l) = true) :
    headSpaceB l = true := by
  rw [starOK_cons, Bool.and_eq_true] at h
  simpa using h.1

/-! ### Helper lemmas: generic facts about `searchM` -/

theorem searchM_mem {γ : Type} (M : Option Char → List Char → Option (γ × Nat))
    (l : List Char) :
    ∀ (p : Option Char) (g : γ) (r : List Char),
      searchM M p l = some (g, r) → ∀ c ∈ r, c ∈ l := by
  induction l with
  | nil =>
    intro p g r h
    rw [searchM] at h
    rcases hm : M p [] with _ | ⟨g', n⟩ <;> rw [hm] at h
    · exact absurd h (by simp)
    · simp_all
  | cons a t ih =>
    intro p g r h
    rw [searchM] at h
    rcases hm : M p (a :: t) with _ | ⟨g', n⟩ <;> rw [hm] at h
    · rcases hs : searchM M (some a) t with _ | ⟨g'', r''⟩ <;> rw [hs] at h
      · exact absurd h (by simp)
      · obtain ⟨heq1, heq2⟩ := Prod.mk.injEq .. ▸ (Option.some.inj h)
        subst heq2
        intro c hc
        rcases List.mem_cons.1 hc with h1 | h2
        · simp [h1]
        · exact List.mem_cons_of_mem _ (ih (some a) g'' r'' hs c h2)
    · obtain ⟨heq1, heq2⟩ := Prod.mk.injEq .. ▸ (Option.some.inj h)
      subst heq2
      intro c hc
      exact List.mem_of_mem_drop hc

theorem searchM_eq_none {γ : Type} (M : Option Char → List Char → Option (γ × Nat))
    (hM : ∀ p t, (∀ c ∈ t, pyIsDigit c = false) → M p t = none)
    {l : List Char} (hl : ∀ c ∈ l, pyIsDigit c = false) (p : Option Char) :
    searchM M p l = none := by
  induction l generalizing p with
  | nil => rw [searchM, hM p [] (by simp)]
  | cons a t ih =>
    rw [searchM, hM p (a :: t) hl, ih (fun c hc => hl c (List.mem_cons_of_mem _ hc)) (some a)]

theorem searchM_starOK {γ : Type} (M : Option Char → List Char → Option (γ × Nat))
    (hM : ∀ p c t, pyIsSpace c = true → M p (c :: t) = none) (l : List Char) :
    ∀ (p : Option Char) (g : γ) (r : List Char),
      starOK l = true → searchM M p l = some (g, r) → starOK r = true := by
  induction l with
  | nil =>
    intro p g r _ h
    rw [searchM] at h
    rcases hm : M p [] with _ | ⟨g', n⟩ <;> rw [hm] at h
    · exact absurd h (by simp)
    · simp_all
  | cons a t ih =>
    intro p g r hok h
    rw [searchM] at h
    rcases hm : M p (a :: t) with _ | ⟨g', n⟩ <;> rw [hm] at h
    · rcases hs : searchM M (some a) t with _ | ⟨g'', r''⟩ <;> rw [hs] at h
      · exact absurd h (by simp)
      · obtain ⟨heq1, heq2⟩ := Prod.mk.injEq .. ▸ (Option.some.inj h)
        subst heq2
        have ht : starOK r'' = true := ih (some a) g'' r'' (starOK_tail hok) hs
        rw [starOK_cons, Bool.and_eq_true]
        refine ⟨?_, ht⟩
        by_cases ha : a = '*'
        · subst ha
          have hsp := starOK_cons_star hok
          cases t with
          | nil =>
            rw [searchM] at hs
            rcases hm2 : M (some '*') [] with _ | ⟨g3, n3⟩ <;> rw [hm2] at hs
            · exact absurd hs (by simp)
            · simp_all
          | cons b t' =>
            have hb : pyIsSpace b = true := by simpa [headSpaceB] using hsp
            rw [searchM, hM (some '*') b t' hb] at hs
            rcases hs2 : searchM M (some b) t' with _ | ⟨g3, r3⟩ <;> rw [hs2] at hs
            · exact absurd hs (by simp)
            · obtain ⟨he1, he2⟩ := Prod.mk.injEq .. ▸ (Option.some.inj hs)
              subst he2
              simp [headSpaceB, hb]
        · simp [ha]
    · obtain ⟨heq1, heq2⟩ := Prod.mk.injEq .. ▸ (Option.some.inj h)
      subst heq2
      exact starOK_drop _ hok

/-! ### Helper lemmas: matchers never fire on a whitespace-headed text -/


theorem mMarked_space {mk c : Char} {t : List Char} (hmk : pyIsSpace mk = false)
    (hc : pyIsSpace c = true) : mMarked mk (c :: t) = none := by
  have hne : c ≠ mk := by
    intro he
    subst he
    rw [hc] at hmk
    exact Bool.noConfusion hmk
  have : mMarked mk (c :: t) =
      if c = mk then
        (match matchTok t with
         | some (g, n) => some (g, n + 1)
         | none => none)
      else none := rfl
  rw [this, if_neg hne]

theorem mPrio_space {c : Char} {t : List Char} (p : Option Char)
    (hc : pyIsSpace c = true) : mPrio p (c :: t) = none := by
  cases t with
  | nil => rfl
  | cons b t' =>
    have hne : ¬(c = '!' ∧ 49 ≤ b.toNat ∧ b.toNat ≤ 53) := by
      rintro ⟨he, -⟩
      subst he
      exact absurd hc (by decide)
    have : mPrio p (c :: b :: t') =
        if c = '!' ∧ 49 ≤ b.toNat ∧ b.toNat ≤ 53 then some (b.toNat - 48, 2) else none := rfl
    rw [this, if_neg hne]

theorem mProj_space {c : Char} {t : List Char} (p : Option Char)
    (hc : pyIsSpace c = true) : mProj p (c :: t) = none :=
  mMarked_space (by decide) hc

theorem ciStarts_space_head {w0 c : Char} (w' t : List Char)
    (hw : pyIsSpace (lowerChar w0) = false) (hc : pyIsSpace c = true) :
    ciStarts (w0 :: w') (c :: t) = false := by
  unfold ciStarts
  rw [Bool.and_eq_false_iff]
  left
  rw [beq_eq_false_iff_ne]
  intro he
  rw [lowerChar_of_space hc] at he
  rw [← pyIsSpace_congr he, hc] at hw
  exact Bool.noConfusion hw

theorem mWord_space {w0 c : Char} (w' : List Char) {t : List Char} (p : Option Char)
    (hw : pyIsSpace (lowerChar w0) = false) (hc : pyIsSpace c = true) :
    mWord (w0 :: w') p (c :: t) = none := by
  unfold mWord
  by_cases hp : prevIsWord p = true
  · rw [if_pos hp]
  · rw [if_neg hp, if_neg]
    rintro ⟨h1, -⟩
    rw [ciStarts_space_head w' t hw hc] at h1
    exact Bool.noConfusion h1

theorem mIn_space (unit : List Char) {c : Char} {t : List Char} (p : Option Char)
    (hc : pyIsSpace c = true) : mIn unit p (c :: t) = none := by
  have h1 : ciStarts ("in ".data) (c :: t) = false := by
    rw [show ("in ".data) = 'i' :: ('n' :: (' ' :: [])) from rfl]
    exact ciStarts_space_head _ _ (by decide) hc
  simp only [mIn, h1]
  simp

theorem digitsN_space {k : Nat} {c : Char} {t : List Char} (hk : 1 ≤ k)
    (hc : pyIsSpace c = true) : digitsN k (c :: t) = none := by
  have hcond : ¬((List.take k (c :: t)).length = k ∧
      (List.take k (c :: t)).all pyIsDigit = true) := by
    rintro ⟨-, h2⟩
    obtain ⟨k', rfl⟩ : ∃ k', k = k' + 1 := ⟨k - 1, by omega⟩
    rw [List.take_succ_cons, List.all_cons, Bool.and_eq_true] at h2
    rw [pyIsSpace_iff] at hc
    have := (pyIsDigit_iff c).1 h2.1
    omega
  simp only [digitsN]
  rw [if_neg hcond]

theorem slashTry_space {dn mn : Nat} {c : Char} {t : List Char} (hdn : 1 ≤ dn)
    (hc : pyIsSpace c = true) : slashTry dn mn (c :: t) = none := by
  unfold slashTry
  rw [digitsN_space hdn hc]

theorem mSlash_space {c : Char} {t : List Char} (p : Option Char)
    (hc : pyIsSpace c = true) : mSlash p (c :: t) = none := by
  unfold mSlash
  rw [slashTry_space (by omega) hc, slashTry_space (by omega) hc,
    slashTry_space (by omega) hc, slashTry_space (by omega) hc]

/-! ### Helper lemmas: the numeric patterns need a digit in the text -/

theorem takeWhile_cons_of_eq {p : Char → Bool} {l t : List Char} {c : Char}
    (h : l.takeWhile p = c :: t) : p c = true ∧ c ∈ l := by
  cases l with
  | nil => exact absurd h (by simp)
  | cons a l' =>
    rw [List.takeWhile_cons] at h
    by_cases hp : p a = true
    · rw [if_pos hp] at h
      obtain ⟨rfl, -⟩ := List.cons.inj h
      exact ⟨hp, List.mem_cons_self a l'⟩
    · rw [if_neg hp] at h
      exact absurd h (by simp)

theorem mIn_noDigit (unit : List Char) (p : Option Char) {l : List Char}
    (hl : ∀ c ∈ l, pyIsDigit c = false) : mIn unit p l = none := by
  simp only [mIn]
  by_cases hci : ciStarts ("in ".data) l = true
  · rw [if_pos hci]
    rcases hds : List.takeWhile pyIsDigit (List.drop 3 l) with _ | ⟨c, t⟩
    · simp
    · obtain ⟨h1, h2⟩ := takeWhile_cons_of_eq hds
      rw [hl c (List.mem_of_mem_drop h2)] at h1
      exact Bool.noConfusion h1
  · rw [if_neg hci]

theorem digitsN_noDigit {k : Nat} (hk : 1 ≤ k) {l : List Char}
    (hl : ∀ c ∈ l, pyIsDigit c = false) : digitsN k l = none := by
  simp only [digitsN]
  cases l with
  | nil =>
    rw [if_neg]
    rintro ⟨h1, -⟩
    simp at h1
    omega
  | cons a l' =>
    rw [if_neg]
    rintro ⟨-, h2⟩
    obtain ⟨k', rfl⟩ : ∃ k', k = k' + 1 := ⟨k - 1, by omega⟩
    rw [List.take_succ_cons, List.all_cons, Bool.and_eq_true] at h2
    rw [hl a (List.mem_cons_self a l')] at h2
    exact Bool.noConfusion h2.1

theorem slashTry_noDigit {dn mn : Nat} (hdn : 1 ≤ dn) {l : List Char}
    (hl : ∀ c ∈ l, pyIsDigit c = false) : slashTry dn mn l = none := by
  unfold slashTry
  rw [digitsN_noDigit hdn hl]

theorem mSlash_noDigit (p : Option Char) {l : List Char}
    (hl : ∀ c ∈ l, pyIsDigit c = false) : mSlash p l = none := by
  unfold mSlash
  rw [slashTry_noDigit (by omega) hl, slashTry_noDigit (by omega) hl,
    slashTry_noDigit (by omega) hl, slashTry_noDigit (by omega) hl]

/-! ### Helper lemmas: the date step -/

theorem applyPat_none {γ : Type} (f : γ → Except PyErr Nat)
    (k : Except PyErr (Option (List Char) × List Char)) :
    applyPat none f k = k := rfl

theorem applyPat_some_ok {γ : Type} {f : γ → Except PyErr Nat} {g : γ} {rd : Nat}
    (r : List Char) (k : Except PyErr (Option (List Char) × List Char))
    (hf : f g = .ok rd) :
    applyPat (some (g, r)) f k = .ok (some (fmtDate rd), r) := by
  simp [applyPat, hf]

/-- Destructor for a successful `applyPat`: either the pattern matched and its
function succeeded, or the pattern did not match and the continuation
produced the result. -/
theorem applyPat_elim {γ : Type} {s : Option (γ × List Char)} {f : γ → Except PyErr Nat}
    {k : Except PyErr (Option (List Char) × List Char)} {due : Option (List Char)}
    {r : List Char} (h : applyPat s f k = .ok (due, r)) :
    (∃ g rd, s = some (g, r) ∧ f g = .ok rd ∧ due = some (fmtDate rd)) ∨
      (s = none ∧ k = .ok (due, r)) := by
  cases s with
  | none => exact .inr ⟨rfl, h⟩
  | some gr =>
    obtain ⟨g, r0⟩ := gr
    left
    simp only [applyPat] at h
    cases hf : f g with
    | ok rd =>
      rw [hf] at h
      obtain ⟨h1, h2⟩ := Prod.mk.injEq .. ▸ (Except.ok.inj h)
      exact ⟨g, rd, by rw [h2], hf, h1.symm⟩
    | error e =>
      rw [hf] at h
      exact absurd h (by simp)

theorem addDaysE_ok_small {today n : Nat} (hn : n ≤ 7) (hr : today + 7 ≤ maxRD) :
    addDaysE today n = .ok (today + n) := by
  unfold addDaysE
  rw [if_neg (by omega), if_neg (by omega)]

theorem weekdayOf_lt (rd : Nat) : weekdayOf rd < 7 :=
  Nat.mod_lt _ (by omega)

theorem nextOffset_bounds (today w : Nat) (hw : w < 7) :
    1 ≤ nextOffset today w ∧ nextOffset today w ≤ 7 := by
  have h7 : weekdayOf today < 7 := weekdayOf_lt today
  simp only [nextOffset]
  split <;> omega

theorem get_next_weekday_ok {today : Nat} (w : Nat) (hw : w < 7) (hr : today + 7 ≤ maxRD) :
    get_next_weekday today w = .ok (today + nextOffset today w) := by
  unfold get_next_weekday
  exact addDaysE_ok_small (nextOffset_bounds today w hw).2 hr

/-- If the matcher's function always succeeds and the continuation yields a
result whose remainder only uses characters of `l`, so does the whole
pattern step. -/
theorem applyPat_search_ok {γ : Type} (M : Option Char → List Char → Option (γ × Nat))
    {l : List Char} {f : γ → Except PyErr Nat}
    (hf : ∀ g, ∃ rd, f g = .ok rd)
    {k : Except PyErr (Option (List Char) × List Char)}
    (hk : ∃ due r, k = .ok (due, r) ∧ ∀ c ∈ r, c ∈ l) :
    ∃ due r, applyPat (searchM M none l) f k = .ok (due, r) ∧ ∀ c ∈ r, c ∈ l := by
  rcases hs : searchM M none l with _ | ⟨g, r0⟩
  · rw [applyPat_none]
    exact hk
  · obtain ⟨rd, hrd⟩ := hf g
    refine ⟨some (fmtDate rd), r0, ?_, ?_⟩
    · exact applyPat_some_ok r0 k hrd
    · exact searchM_mem M l none g r0 hs

/-- On a digit-free text the date step cannot raise: the three numeric
patterns do not match, and the word patterns' date arithmetic stays in
range. -/
theorem dateStep_ok_noDigit {today : Nat} {l : List Char} (hr : today + 7 ≤ maxRD)
    (hl : ∀ c ∈ l, pyIsDigit c = false) :
    ∃ due r, dateStep today l = .ok (due, r) ∧ ∀ c ∈ r, c ∈ l := by
  unfold dateStep
  rw [searchM_eq_none mInDays (fun p t ht => mIn_noDigit ("day".data) p ht) hl none,
    searchM_eq_none mInWeeks (fun p t ht => mIn_noDigit ("week".data) p ht) hl none,
    searchM_eq_none mSlash (fun p t ht => mSlash_noDigit p ht) hl none]
  refine applyPat_search_ok _ (fun g => ⟨today, rfl⟩) ?_
  refine applyPat_search_ok _ (fun g => ⟨today + 1, addDaysE_ok_small (by omega) hr⟩) ?_
  refine applyPat_search_ok _ (fun g => ⟨_, get_next_weekday_ok 0 (by omega) hr⟩) ?_
  refine applyPat_search_ok _ (fun g => ⟨_, get_next_weekday_ok 1 (by omega) hr⟩) ?_
  refine applyPat_search_ok _ (fun g => ⟨_, get_next_weekday_ok 2 (by omega) hr⟩) ?_
  refine applyPat_search_ok _ (fun g => ⟨_, get_next_weekday_ok 3 (by omega) hr⟩) ?_
  refine applyPat_search_ok _ (fun g => ⟨_, get_next_weekday_ok 4 (by omega) hr⟩) ?_
  refine applyPat_search_ok _ (fun g => ⟨_, get_next_weekday_ok 5 (by omega) hr⟩) ?_
  refine applyPat_search_ok _ (fun g => ⟨_, get_next_weekday_ok 6 (by omega) hr⟩) ?_
  rw [applyPat_none, applyPat_none, applyPat_none]
  exact ⟨none, l, rfl, fun c hc => hc⟩

/-! ### Helper lemmas: the label scan and the extraction pipeline -/

theorem scanLabelsF_mem (fuel : Nat) :
    ∀ (l : List Char) (c : Char), c ∈ (scanLabelsF fuel l).2 → c ∈ l := by
  induction fuel with
  | zero =>
    intro l c hc
    simpa only [scanLabelsF] using hc
  | succ fuel ih =>
    intro l c hc
    cases l with
    | nil => simpa only [scanLabelsF] using hc
    | cons a t =>
      rw [scanLabelsF] at hc
      rcases hm : matchLabelAt (a :: t) with _ | ⟨g, n⟩ <;> rw [hm] at hc <;> simp only at hc
      · rcases List.mem_cons.1 hc with h1 | h2
        · simp [h1]
        · exact List.mem_cons_of_mem _ (ih t c h2)
      · exact List.mem_of_mem_drop (ih _ c hc)

theorem scanLabels_mem (l : List Char) : ∀ c ∈ (scanLabels l).2, c ∈ l :=
  scanLabelsF_mem l.length l

theorem optSub_snd_mem {γ : Type} (M : Option Char → List Char → Option (γ × Nat))
    (t : List Char) :
    ∀ c ∈ (optSub (searchM M none t) t).2, c ∈ t := by
  rcases hs : searchM M none t with _ | ⟨g, r⟩
  · simp [optSub]
  · simp only [optSub]
    exact searchM_mem M t none g r hs

/-! ### Helper lemmas: the label scan establishes the `starOK` invariant -/

theorem quotedTok_cons (q c : Char) (u : List Char) :
    quotedTok q (c :: u) =
      if c = q then
        (if (List.takeWhile (fun x => x != q) u).isEmpty = true then none
         else if (List.drop (List.takeWhile (fun x => x != q) u).length u).head? = some q then
           some (List.takeWhile (fun x => x != q) u, (List.takeWhile (fun x => x != q) u).length + 2)
         else none)
      else none := rfl

theorem mMarked_cons (mk c : Char) (t : List Char) :
    mMarked mk (c :: t) =
      if c = mk then
        (match matchTok t with
         | some (g, n) => some (g, n + 1)
         | none => none)
      else none := rfl

theorem matchTok_space_head {d : Char} (t' : List Char) (hd : pyIsSpace d = true) :
    matchTok (d :: t') = none := by
  have hq : ∀ q : Char, pyIsSpace q = false → quotedTok q (d :: t') = none := by
    intro q hq
    rw [quotedTok_cons, if_neg]
    intro he
    subst he
    rw [hd] at hq
    exact Bool.noConfusion hq
  unfold matchTok
  rw [hq '"' (by decide), hq '\'' (by decide)]
  unfold nonspaceTok
  simp only [List.takeWhile_cons, hd]
  rfl

theorem mMarked_pos {mk : Char} {l : List Char} {g : List Char} {n : Nat}
    (h : mMarked mk l = some (g, n)) : 1 ≤ n := by
  cases l with
  | nil => exact absurd h (by simp [mMarked])
  | cons c t =>
    have he : mMarked mk (c :: t) =
        if c = mk then
          (match matchTok t with
           | some (g, n) => some (g, n + 1)
           | none => none)
        else none := rfl
    rw [he] at h
    by_cases hc : c = mk
    · rw [if_pos hc] at h
      rcases hm : matchTok t with _ | ⟨g0, n0⟩ <;> rw [hm] at h
      · exact absurd h (by simp)
      · obtain ⟨-, h2⟩ := Prod.mk.injEq .. ▸ (Option.some.inj h)
        omega
    · rw [if_neg hc] at h
      exact absurd h (by simp)

theorem matchLabelAt_star_none {t : List Char} (h : matchLabelAt ('*' :: t) = none) :
    headSpaceB t = true := by
  cases t with
  | nil => rfl
  | cons d t' =>
    by_cases hd : pyIsSpace d = true
    · simpa [headSpaceB] using hd
    · exfalso
      have hne : matchTok (d :: t') ≠ none := by
        unfold matchTok
        rcases h1 : quotedTok '"' (d :: t') with _ | r1
        · rcases h2 : quotedTok '\'' (d :: t') with _ | r2
          · unfold nonspaceTok
            simp only [List.takeWhile_cons]
            rw [Bool.not_eq_true] at hd
            rw [hd]
            simp
          · simp
        · simp
      unfold matchLabelAt at h
      rw [mMarked_cons, if_pos rfl] at h
      rcases hm : matchTok (d :: t') with _ | ⟨g0, n0⟩
      · exact hne hm
      · rw [hm] at h
        exact absurd h (by simp)

theorem matchLabelAt_none_of_ok {a : Char} {t : List Char}
    (ha : a = '*' → headSpaceB t = true) : matchLabelAt (a :: t) = none := by
  unfold matchLabelAt
  rw [mMarked_cons]
  by_cases h : a = '*'
  · rw [if_pos h]
    have hs := ha h
    cases t with
    | nil => rfl
    | cons d t' =>
      have hd : pyIsSpace d = true := by simpa [headSpaceB] using hs
      rw [matchTok_space_head t' hd]
  · rw [if_neg h]

theorem scanLabelsF_nil (fuel : Nat) : scanLabelsF fuel [] = ([], []) := by
  cases fuel <;> rfl

theorem scanLabelsF_headSpace {s : Char} (fuel : Nat) (t : List Char)
    (hs : pyIsSpace s = true) :
    headSpaceB (scanLabelsF fuel (s :: t)).2 = true := by
  cases fuel with
  | zero => simpa [scanLabelsF, headSpaceB] using hs
  | succ fuel =>
    rw [scanLabelsF, matchLabelAt_none_of_ok (fun he => absurd hs (by rw [he]; decide))]
    simpa [headSpaceB] using hs

theorem scanLabelsF_starOK : ∀ (fuel : Nat) (l : List Char), l.length ≤ fuel →
    starOK (scanLabelsF fuel l).2 = true := by
  intro fuel
  induction fuel with
  | zero =>
    intro l hl
    have hnil : l = [] := List.eq_nil_of_length_eq_zero (by omega)
    subst hnil
    simp [scanLabelsF]
  | succ fuel ih =>
    intro l hl
    cases l with
    | nil => simp [scanLabelsF]
    | cons a t =>
      rw [scanLabelsF]
      rcases hm : matchLabelAt (a :: t) with _ | ⟨g, n⟩
      · simp only
        rw [starOK_cons, Bool.and_eq_true]
        constructor
        · by_cases ha : a = '*'
          · rw [if_pos ha]
            subst ha
            have hsp := matchLabelAt_star_none hm
            cases t with
            | nil => rw [scanLabelsF_nil]; rfl
            | cons s t' =>
              have hs : pyIsSpace s = true := by simpa [headSpaceB] using hsp
              exact scanLabelsF_headSpace fuel t' hs
          · rw [if_neg ha]
        · exact ih t (by simp at hl; omega)
      · simp only
        have hn : 1 ≤ n := mMarked_pos hm
        refine ih _ ?_
        rw [List.length_drop]
        simp at hl ⊢
        omega

theorem scanLabelsF_id_of_starOK : ∀ (fuel : Nat) (l : List Char), starOK l = true →
    l.length ≤ fuel → scanLabelsF fuel l = ([], l) := by
  intro fuel
  induction fuel with
  | zero =>
    intro l _ hl
    have hnil : l = [] := List.eq_nil_of_length_eq_zero (by omega)
    subst hnil
    rfl
  | succ fuel ih =>
    intro l hok hl
    cases l with
    | nil => rfl
    | cons a t =>
      rw [scanLabelsF, matchLabelAt_none_of_ok (fun ha => by
        subst ha
        exact starOK_cons_star hok)]
      simp only
      rw [ih t (starOK_tail hok) (by simp at hl; omega)]

/-! ### Helper lemmas: every later pass preserves `starOK` -/

theorem optSub_starOK {γ : Type} (M : Option Char → List Char → Option (γ × Nat))
    (hM : ∀ p c t, pyIsSpace c = true → M p (c :: t) = none)
    (t : List Char) (hok : starOK t = true) :
    starOK (optSub (searchM M none t) t).2 = true := by
  rcases hs : searchM M none t with _ | ⟨g, r⟩
  · simpa [optSub] using hok
  · simp only [optSub]
    exact searchM_starOK M hM t none g r hok hs

theorem dateStep_starOK {today : Nat} {l : List Char} {due : Option (List Char)} {r : List Char}
    (hok : starOK l = true) (h : dateStep today l = .ok (due, r)) : starOK r = true := by
  unfold dateStep at h
  rcases applyPat_elim h with ⟨g, rd, hs, -, -⟩ | ⟨-, h⟩
  · refine searchM_starOK _ ?_ l none g r hok hs
    intro p c t hc
    rw [show ("today".data) = 't' :: ('o' :: 'd' :: 'a' :: 'y' :: []) from rfl]
    exact mWord_space _ p (by decide) hc
  rcases applyPat_elim h with ⟨g, rd, hs, -, -⟩ | ⟨-, h⟩
  · refine searchM_starOK _ ?_ l none g r hok hs
    intro p c t hc
    rw [show ("tomorrow".data) = 't' :: ('o' :: 'm' :: 'o' :: 'r' :: 'r' :: 'o' :: 'w' :: []) from rfl]
    exact mWord_space _ p (by decide) hc
  rcases applyPat_elim h with ⟨g, rd, hs, -, -⟩ | ⟨-, h⟩
  · refine searchM_starOK _ ?_ l none g r hok hs
    intro p c t hc
    rw [show ("next monday".data) = 'n' :: ("ext monday".data) from rfl]
    exact mWord_space _ p (by decide) hc
  rcases applyPat_elim h with ⟨g, rd, hs, -, -⟩ | ⟨-, h⟩
  · refine searchM_starOK _ ?_ l none g r hok hs
    intro p c t hc
    rw [show ("next tuesday".data) = 'n' :: ("ext tuesday".data) from rfl]
    exact mWord_space _ p (by decide) hc
  rcases applyPat_elim h with ⟨g, rd, hs, -, -⟩ | ⟨-, h⟩
  · refine searchM_starOK _ ?_ l none g r hok hs
    intro p c t hc
    rw [show ("next wednesday".data) = 'n' :: ("ext wednesday".data) from rfl]
    exact mWord_space _ p (by decide) hc
  rcases applyPat_elim h with ⟨g, rd, hs, -, -⟩ | ⟨-, h⟩
  · refine searchM_starOK _ ?_ l none g r hok hs
    intro p c t hc
    rw [show ("next thursday".data) = 'n' :: ("ext thursday".data) from rfl]
    exact mWord_space _ p (by decide) hc
  rcases applyPat_elim h with ⟨g, rd, hs, -, -⟩ | ⟨-, h⟩
  · refine searchM_starOK _ ?_ l none g r hok hs
    intro p c t hc
    rw [show ("next friday".data) = 'n' :: ("ext friday".data) from rfl]
    exact mWord_space _ p (by decide) hc
  rcases applyPat_elim h with ⟨g, rd, hs, -, -⟩ | ⟨-, h⟩
  · refine searchM_starOK _ ?_ l none g r hok hs
    intro p c t hc
    rw [show ("next saturday".data) = 'n' :: ("ext saturday".data) from rfl]
    exact mWord_space _ p (by decide) hc
  rcases applyPat_elim h with ⟨g, rd, hs, -, -⟩ | ⟨-, h⟩
  · refine searchM_starOK _ ?_ l none g r hok hs
    intro p c t hc
    rw [show ("next sunday".data) = 'n' :: ("ext sunday".data) from rfl]
    exact mWord_space _ p (by decide) hc
  rcases applyPat_elim h with ⟨g, rd, hs, -, -⟩ | ⟨-, h⟩
  · refine searchM_starOK _ ?_ l none g r hok hs
    intro p c t hc
    exact mIn_space _ p hc
  rcases applyPat_elim h with ⟨g, rd, hs, -, -⟩ | ⟨-, h⟩
  · refine searchM_starOK _ ?_ l none g r hok hs
    intro p c t hc
    exact mIn_space _ p hc
  rcases applyPat_elim h with ⟨g, rd, hs, -, -⟩ | ⟨-, h⟩
  · refine searchM_starOK _ ?_ l none g r hok hs
    intro p c t hc
    exact mSlash_space p hc
  obtain ⟨-, h2⟩ := Prod.mk.injEq .. ▸ (Except.ok.inj h)
  exact h2 ▸ hok

/-! ### Helper lemmas: whitespace collapse preserves `starOK` -/

theorem collapseWsGo_one (c : Char) :
    collapseWsGo [c] = if pyIsSpace c = true then [] else [c] := rfl

theorem collapseWsGo_cons2 (c d : Char) (rest : List Char) :
    collapseWsGo (c :: d :: rest) =
      if pyIsSpace c = true then
        (if pyIsSpace d = true then collapseWsGo (d :: rest)
         else ' ' :: collapseWsGo (d :: rest))
      else c :: collapseWsGo (d :: rest) := rfl

theorem starOK_singleton (c : Char) : starOK [c] = true := by
  rw [starOK_cons]
  by_cases h : c = '*' <;> simp [h, headSpaceB]

theorem starOK_dropWhile (p : Char → Bool) {l : List Char} (hok : starOK l = true) :
    starOK (l.dropWhile p) = true := by
  induction l with
  | nil => simp
  | cons a t ih =>
    rw [List.dropWhile_cons]
    by_cases hp : p a = true
    · rw [if_pos hp]
      exact ih (starOK_tail hok)
    · rw [if_neg hp]
      exact hok

theorem collapseWsGo_headSpace : ∀ (t : List Char) (s : Char), pyIsSpace s = true →
    headSpaceB (collapseWsGo (s :: t)) = true := by
  intro t
  induction t with
  | nil =>
    intro s hs
    rw [collapseWsGo_one, if_pos hs]
    rfl
  | cons d t' ih =>
    intro s hs
    rw [collapseWsGo_cons2, if_pos hs]
    by_cases hd : pyIsSpace d = true
    · rw [if_pos hd]
      exact ih d hd
    · rw [if_neg hd]
      rfl

theorem collapseWsGo_starOK : ∀ (l : List Char), starOK l = true →
    starOK (collapseWsGo l) = true := by
  intro l
  induction l with
  | nil => exact fun h => h
  | cons c t ih =>
    intro hok
    cases t with
    | nil =>
      rw [collapseWsGo_one]
      by_cases hc : pyIsSpace c = true
      · rw [if_pos hc]
        rfl
      · rw [if_neg hc]
        exact starOK_singleton c
    | cons d rest =>
      rw [collapseWsGo_cons2]
      have iht := ih (starOK_tail hok)
      by_cases hc : pyIsSpace c = true
      · rw [if_pos hc]
        by_cases hd : pyIsSpace d = true
        · rw [if_pos hd]
          exact iht
        · rw [if_neg hd]
          rw [starOK_cons, Bool.and_eq_true]
          exact ⟨by rw [if_neg (by decide)], iht⟩
      · rw [if_neg hc]
        rw [starOK_cons, Bool.and_eq_true]
        refine ⟨?_, iht⟩
        by_cases hstar : c = '*'
        · rw [if_pos hstar]
          subst hstar
          have hd2 := starOK_cons_star hok
          have hd : pyIsSpace d = true := by simpa [headSpaceB] using hd2
          exact collapseWsGo_headSpace rest d hd
        · rw [if_neg hstar]

theorem collapseWs_starOK (l : List Char) (hok : starOK l = true) :
    starOK (collapseWs l) = true :=
  collapseWsGo_starOK _ (starOK_dropWhile _ hok)

/-! ### Helper lemmas: the parser's output fields -/

/-- Every title the parser produces satisfies `starOK`, and the labels field
is the label scan's output. -/
theorem parse_ok_fields {today : Nat} {l : List Char} {s : ParsedTask}
    (h : parse_vikunja_task_format today l = .ok s) :
    starOK s.title = true ∧ s.labels = (scanLabels l).1 := by
  have hok1 : starOK (scanLabels l).2 = true := scanLabelsF_starOK l.length l (le_refl _)
  have hok2 := optSub_starOK mPrio (fun p c t hc => mPrio_space p hc) _ hok1
  have hok3 := optSub_starOK mProj (fun p c t hc => mProj_space p hc) _ hok2
  simp only [parse_vikunja_task_format] at h
  split at h
  next e heq => exact absurd h (by simp)
  next due t4 heq =>
    have hst : starOK t4 = true := dateStep_starOK hok3 heq
    have hsrec := Except.ok.inj h
    rw [← hsrec]
    exact ⟨collapseWs_starOK _ hst, rfl⟩

/-! ### Weekday arithmetic facts for the `next <weekday>` patterns -/

theorem nextOffset_eq_seven {today w : Nat} (h : weekdayOf today = w) :
    nextOffset today w = 7 := by
  simp only [nextOffset, h]
  rw [if_pos (le_refl w)]
  omega

theorem weekdayOf_add_nextOffset (today w : Nat) (hw : w < 7) :
    weekdayOf (today + nextOffset today w) = w := by
  have h7 : weekdayOf today < 7 := weekdayOf_lt today
  simp only [nextOffset, weekdayOf] at *
  split <;> omega

/-! ## The claims

`rd0` is the rata-die number of 2026-10-12 (a Monday), the concrete "today"
used by witnesses and counterexamples. -/

def rd0 : Nat := toRD ⟨2026, 10, 12⟩

/-- C1 counterexample: the quick-add parser is not total.  On the input
`"1/13/2025"` the slash pattern matches with month 13, the embedded
`datetime(2025, 13, 1)` constructor rejects it, and the parse raises
`ValueError` instead of returning a `ParsedTaskSpec` (in the embedding:
`.error .valueError`). -/
theorem c1_counterexample :
    parse_vikunja_task_format rd0 ("1/13/2025".data) = .error .valueError := rfl

/-- C1 (amended): the parser always terminates, and it returns normally on
every input containing no decimal digit (for any current date at least a week
below the calendar maximum); only the numeric date patterns — a matched
`D/M/YYYY` span with out-of-range values, or `in N days/weeks` with `N` out
of the supported range — can make it raise. -/
theorem c1_amended (today : Nat) (l : List Char) (hr : today + 7 ≤ maxRD)
    (hl : ∀ c ∈ l, pyIsDigit c = false) :
    ∃ s, parse_vikunja_task_format today l = .ok s := by
  simp only [parse_vikunja_task_format]
  split
  next e heq =>
    exfalso
    obtain ⟨due, r, hds, -⟩ := dateStep_ok_noDigit hr
      (fun c hc => hl c (scanLabels_mem l c
        (optSub_snd_mem mPrio _ c (optSub_snd_mem mProj _ c hc))))
    rw [hds] at heq
    exact absurd heq (by simp)
  next due t4 heq => exact ⟨_, rfl⟩

/-- C1 witness: the amended totality theorem applied at the concrete date
2026-10-12 and the digit-free input `"hello *world today"`. -/
theorem c1_amended_witness :
    (rd0 + 7 ≤ maxRD ∧ ∀ c ∈ ("hello *world today".data), pyIsDigit c = false) ∧
      ∃ s, parse_vikunja_task_format rd0 ("hello *world today".data) = .ok s :=
  ⟨⟨by decide, by decide⟩, c1_amended rd0 ("hello *world today".data) (by decide) (by decide)⟩

/-- C5 counterexample: re-parsing the extracted title is not free of
marker-driven extraction.  `parse("!1 !2")` removes only the first priority
marker, so the title is `"!2"`, and re-parsing that title extracts
priority 2 — the claim's "no priority" fails (and a second `+project` marker
fails the same way). -/
theorem c5_counterexample :
    parse_vikunja_task_format rd0 ("!1 !2".data) =
        .ok { title := ("!2".data), labels := [], priority := some 1, project := none,
              due_date := none, repeatOpt := none } ∧
      parse_vikunja_task_format rd0 ("!2".data) =
        .ok { title := [], labels := [], priority := some 2, project := none,
              due_date := none, repeatOpt := none } ∧
      (some 2 : Option Nat) ≠ none :=
  ⟨rfl, rfl, by simp⟩

/-- C5 (amended): re-parsing the title produced by a successful parse yields
no further *label* extraction — the label pass removes every label match, and
every `*` left in the title is followed by whitespace or the end of the text,
so the label pattern cannot match the title.  Priority and project markers
beyond the first, however, survive into the title and can be re-extracted
(see the counterexample). -/
theorem c5_amended (today today' : Nat) (l : List Char) (s s' : ParsedTask)
    (h : parse_vikunja_task_format today l = .ok s)
    (h' : parse_vikunja_task_format today' s.title = .ok s') :
    s'.labels = [] := by
  obtain ⟨hst, -⟩ := parse_ok_fields h
  obtain ⟨-, hlab⟩ := parse_ok_fields h'
  rw [hlab, scanLabels, scanLabelsF_id_of_starOK _ _ hst (le_refl _)]

/-- C5 witness: the amended theorem applied to the concrete parse of
`"!1 *a"` (title `""`) and its re-parse. -/
theorem c5_amended_witness :
    (parse_vikunja_task_format rd0 ("!1 *a".data) =
        .ok { title := [], labels := [("a".data)], priority := some 1, project := none,
              due_date := none, repeatOpt := none } ∧
      parse_vikunja_task_format rd0 ([] : List Char) =
        .ok { title := [], labels := [], priority := none, project := none,
              due_date := none, repeatOpt := none }) ∧
      ({ title := [], labels := [], priority := none, project := none,
         due_date := none, repeatOpt := none } : ParsedTask).labels = [] :=
  ⟨⟨rfl, rfl⟩, c5_amended rd0 rd0 ("!1 *a".data) _ _ rfl rfl⟩

/-- C2: the date patterns are evaluated in the fixed dict order and only the
first pattern that matches anywhere in the text is applied (its span removed,
no later pattern tried).  First conjunct: whenever `today` and `tomorrow` do
not match and `next monday` does, the date step's result is exactly the
`next monday` computation with that span removed.  Second conjunct: on
`"meeting next monday in 3 days"` the due date comes from the `next monday`
pattern — the `in 3 days` span is left in the title untouched. -/
theorem c2_first_pattern_wins (today : Nat) (l : List Char) (hr : today + 7 ≤ maxRD) :
    (searchM (mWord ("today".data)) none l = none →
      searchM (mWord ("tomorrow".data)) none l = none →
      ∀ r, searchM (mWord ("next monday".data)) none l = some ((), r) →
        dateStep today l = .ok (some (fmtDate (today + nextOffset today 0)), r)) ∧
      parse_vikunja_task_format today ("meeting next monday in 3 days".data) =
        .ok { title := ("meeting in 3 days".data), labels := [], priority := none,
              project := none,
              due_date := some (fmtDate (today + nextOffset today 0)), repeatOpt := none } := by
  have hgen : ∀ t : List Char, searchM (mWord ("today".data)) none t = none →
      searchM (mWord ("tomorrow".data)) none t = none →
      ∀ r, searchM (mWord ("next monday".data)) none t = some ((), r) →
        dateStep today t = .ok (some (fmtDate (today + nextOffset today 0)), r) := by
    intro t h1 h2 r h3
    unfold dateStep
    rw [h1, applyPat_none, h2, applyPat_none, h3]
    exact applyPat_some_ok r _ (get_next_weekday_ok 0 (by omega) hr)
  refine ⟨hgen l, ?_⟩
  have hstep : parse_vikunja_task_format today ("meeting next monday in 3 days".data) =
      (match dateStep today ("meeting next monday in 3 days".data) with
       | .error e => .error e
       | .ok (due, t4) =>
         .ok { title := collapseWs t4, labels := [], priority := none, project := none,
               due_date := due, repeatOpt := none }) := rfl
  rw [hstep, hgen ("meeting next monday in 3 days".data) rfl rfl ("meeting  in 3 days".data) rfl]
  rfl

/-- C2 witness: the theorem applied at the concrete Monday 2026-10-12; the
due date it produces is 2026-10-19, seven days later. -/
theorem c2_first_pattern_wins_witness :
    (rd0 + 7 ≤ maxRD) ∧
      parse_vikunja_task_format rd0 ("meeting next monday in 3 days".data) =
        .ok { title := ("meeting in 3 days".data), labels := [], priority := none,
              project := none,
              due_date := some (fmtDate (rd0 + nextOffset rd0 0)), repeatOpt := none } ∧
      fmtDate (rd0 + nextOffset rd0 0) = ("2026-10-19".data) :=
  ⟨by decide, (c2_first_pattern_wins rd0 ("x".data) (by decide)).2, by decide⟩

/-- C8 counterexample: `next <weekday>` does not yield a date for *every*
current date.  At 9999-12-31 (= `maxRD`), the last representable `datetime`
date, `get_next_weekday` must add 1–7 days, the addition overflows
`datetime.max`, and parsing `"next monday"` raises `OverflowError` instead of
yielding a date. -/
theorem c8_counterexample :
    parse_vikunja_task_format maxRD ("next monday".data) = .error .overflowError := rfl

/-- C8 (amended): for every weekday `w` and every current date at least 7
days below the calendar maximum, `get_next_weekday` returns the date
`days_ahead` days later where `1 ≤ days_ahead ≤ 7`, `days_ahead = 7` exactly
when today already is weekday `w`, and the returned date falls on weekday
`w` — the next strictly future occurrence. -/
theorem c8_amended (today w : Nat) (hw : w < 7) (hr : today + 7 ≤ maxRD) :
    1 ≤ nextOffset today w ∧ nextOffset today w ≤ 7 ∧
      (weekdayOf today = w → nextOffset today w = 7) ∧
      get_next_weekday today w = .ok (today + nextOffset today w) ∧
      weekdayOf (today + nextOffset today w) = w := by
  obtain ⟨h1, h2⟩ := nextOffset_bounds today w hw
  exact ⟨h1, h2, fun he => nextOffset_eq_seven he, get_next_weekday_ok w hw hr,
    weekdayOf_add_nextOffset today w hw⟩

/-- C8 witness: at the Monday 2026-10-12 the offset to `next monday` is
exactly 7 days. -/
theorem c8_amended_witness :
    ((0 : Nat) < 7 ∧ rd0 + 7 ≤ maxRD) ∧
      (1 ≤ nextOffset rd0 0 ∧ nextOffset rd0 0 ≤ 7 ∧
        (weekdayOf rd0 = 0 → nextOffset rd0 0 = 7) ∧
        get_next_weekday rd0 0 = .ok (rd0 + nextOffset rd0 0) ∧
        weekdayOf (rd0 + nextOffset rd0 0) = 0) ∧
      weekdayOf rd0 = 0 ∧ nextOffset rd0 0 = 7 :=
  ⟨⟨by decide, by decide⟩, c8_amended rd0 0 (by decide) (by decide), by decide, by decide⟩

/-- C3 counterexample: with a stale non-empty cache entry (written at `t=0`,
looked up at `t=61`) and a failing fetch, `get_all_projects_cached` returns
the empty list — not the previously cached list `[{id 5}]` the claim
promises. -/
theorem c3_counterexample :
    (get_all_projects_cached (some { data := [{ id := 5, title := "Work" }], timestamp := 0 })
        61 none).1 = ([] : List ProjectT) ∧
      ([] : List ProjectT) ≠ [{ id := 5, title := "Work" }] :=
  ⟨rfl, by simp⟩

/-- C3 (amended): on a cache miss (entry absent or at least 60 seconds old)
exactly one fetch is issued; on success the entry is replaced with the new
data and the current timestamp and the new data is returned; on failure
(non-200 or transport error) the *empty list* is returned and the old entry
is left in place. -/
theorem c3_amended (cache : Option CacheEntry) (now : Nat) (fetch : Option (List ProjectT))
    (hmiss : cache = none ∨ ∃ e, cache = some e ∧ ¬(now - e.timestamp < 60)) :
    (get_all_projects_cached cache now fetch).2.2 = true ∧
      (∀ ps, fetch = some ps →
        get_all_projects_cached cache now fetch =
          (ps, some { data := ps, timestamp := now }, true)) ∧
      (fetch = none → get_all_projects_cached cache now fetch = ([], cache, true)) := by
  have hstep : get_all_projects_cached cache now fetch =
      (match fetch with
       | some ps => (ps, some { data := ps, timestamp := now }, true)
       | none => ([], cache, true)) := by
    rcases hmiss with rfl | ⟨e, rfl, he⟩
    · rfl
    · simp only [get_all_projects_cached]
      rw [if_neg he]
  refine ⟨?_, ?_, ?_⟩
  · rw [hstep]
    cases fetch <;> rfl
  · intro ps hf
    rw [hstep, hf]
  · intro hf
    rw [hstep, hf]

/-- C3 witness: the amended theorem at a stale entry and a successful fetch,
plus the failure case directly. -/
theorem c3_amended_witness :
    ((some ({ data := [{ id := 5, title := "Work" }], timestamp := 0 } : CacheEntry) = none ∨
        ∃ e, some ({ data := [{ id := 5, title := "Work" }], timestamp := 0 } : CacheEntry) =
            some e ∧ ¬((61 : Nat) - e.timestamp < 60))) ∧
      get_all_projects_cached (some { data := [{ id := 5, title := "Work" }], timestamp := 0 })
          61 (some [{ id := 7, title := "New" }]) =
        ([{ id := 7, title := "New" }], some { data := [{ id := 7, title := "New" }], timestamp := 61 },
          true) :=
  ⟨.inr ⟨_, rfl, by decide⟩,
    (c3_amended _ 61 _ (.inr ⟨_, rfl, by decide⟩)).2.1 _ rfl⟩

/-! ### Helper lemmas: task aggregation -/

theorem aggGo_error_iff (fetch : Nat → FetchOutcome) :
    ∀ ps : List ProjectT, aggGo fetch ps = .error () ↔ ∃ p ∈ ps, fetch p.id = .exc := by
  intro ps
  induction ps with
  | nil => simp [aggGo]
  | cons p ps' ih =>
    rw [aggGo]
    cases hf : fetch p.id with
    | exc => simp [hf]
    | resp st payload =>
      dsimp only
      by_cases hst : st = 200
      · rw [if_pos hst]
        rcases ha : aggGo fetch ps' with e | rest
        · cases e
          constructor
          · intro _
            obtain ⟨q, hq1, hq2⟩ := ih.mp ha
            exact ⟨q, List.mem_cons_of_mem _ hq1, hq2⟩
          · intro _
            rfl
        · constructor
          · intro h
            exact absurd h (by simp)
          · rintro ⟨q, hq1, hq2⟩
            rcases List.mem_cons.1 hq1 with rfl | hq1'
            · rw [hf] at hq2
              exact FetchOutcome.noConfusion hq2
            · rw [ih.mpr ⟨q, hq1', hq2⟩] at ha
              exact absurd ha (by simp)
      · rw [if_neg hst]
        constructor
        · intro h
          obtain ⟨q, hq1, hq2⟩ := ih.mp h
          exact ⟨q, List.mem_cons_of_mem _ hq1, hq2⟩
        · rintro ⟨q, hq1, hq2⟩
          rcases List.mem_cons.1 hq1 with rfl | hq1'
          · rw [hf] at hq2
            exact FetchOutcome.noConfusion hq2
          · exact ih.mpr ⟨q, hq1', hq2⟩

theorem aggGo_ok_of_no_exc (fetch : Nat → FetchOutcome) :
    ∀ ps : List ProjectT, (∀ p ∈ ps, fetch p.id ≠ .exc) →
      aggGo fetch ps = .ok ((ps.map (fun p =>
        match fetch p.id with
        | .resp st payload =>
          if st = 200 then (payloadTasks payload).map (fun t => { t with project_id := p.id })
          else []
        | .exc => [])).flatten) := by
  intro ps
  induction ps with
  | nil => intro _; rfl
  | cons p ps' ih =>
    intro hne
    have hih := ih (fun q hq => hne q (List.mem_cons_of_mem _ hq))
    rw [aggGo]
    cases hf : fetch p.id with
    | exc => exact absurd hf (hne p (List.mem_cons_self p ps'))
    | resp st payload =>
      dsimp only
      by_cases hst : st = 200
      · rw [if_pos hst, hih]
        simp [hf, hst]
      · rw [if_neg hst, hih]
        simp [hf, hst]

/-- C4 counterexample: one unreachable project *does* abort the whole
aggregation.  With project 1 healthy (200, one task) and project 2 raising a
transport exception, `get_active_tasks_from_projects` propagates the
exception (`.error ()`) instead of returning project 1's tasks. -/
theorem c4_counterexample :
    get_active_tasks_from_projects [{ id := 1, title := "A" }, { id := 2, title := "B" }]
        (fun i => if i = 1 then .resp 200 (.asList [{ id := 10, title := "t", done := false, project_id := 0 }]) else .exc) = .error () ∧
      (Except.error () : Except Unit (List TaskT)) ≠
        .ok [{ id := 10, title := "t", done := false, project_id := 1 }] :=
  ⟨rfl, by simp⟩

/-- C4 (amended): the per-project loop skips projects whose fetch returns a
non-200 status and concatenates the done-filtered tasks of the 200 responses
(each task tagged with its owning project id) — but only when no project's
fetch raises: a raised transport exception propagates and aborts the whole
aggregation, which returns `.error` exactly when some listed project's fetch
raises. -/
theorem c4_amended (projects : List ProjectT) (fetch : Nat → FetchOutcome) :
    (get_active_tasks_from_projects projects fetch = .error () ↔
        ∃ p ∈ projects, fetch p.id = .exc) ∧
      ((∀ p ∈ projects, fetch p.id ≠ .exc) →
        get_active_tasks_from_projects projects fetch =
          .ok (((projects.map (fun p =>
            match fetch p.id with
            | .resp st payload =>
              if st = 200 then (payloadTasks payload).map (fun t => { t with project_id := p.id })
              else []
            | .exc => [])).flatten).filter (fun t => !t.done))) := by
  constructor
  · rw [← aggGo_error_iff fetch projects]
    unfold get_active_tasks_from_projects
    rcases ha : aggGo fetch projects with e | all_tasks
    · cases e
      simp
    · simp
  · intro hne
    unfold get_active_tasks_from_projects
    rw [aggGo_ok_of_no_exc fetch projects hne]

/-- C4 witness: two projects, one 200 with a done and a pending task, one
returning HTTP 500 — the 500 project is skipped and the pending task of the
healthy project is returned, tagged with its project id. -/
theorem c4_amended_witness :
    (∀ p ∈ [({ id := 1, title := "A" } : ProjectT), { id := 2, title := "B" }],
        (fun i => if i = 1 then FetchOutcome.resp 200 (.asList [{ id := 10, title := "t", done := false, project_id := 0 }, { id := 11, title := "u", done := true, project_id := 0 }]) else .resp 500 (.asList [{ id := 12, title := "v", done := false, project_id := 0 }])) p.id ≠ .exc) ∧
      get_active_tasks_from_projects [{ id := 1, title := "A" }, { id := 2, title := "B" }]
          (fun i => if i = 1 then FetchOutcome.resp 200 (.asList [{ id := 10, title := "t", done := false, project_id := 0 }, { id := 11, title := "u", done := true, project_id := 0 }]) else .resp 500 (.asList [{ id := 12, title := "v", done := false, project_id := 0 }])) =
        .ok [{ id := 10, title := "t", done := false, project_id := 1 }] := by
  refine ⟨by decide, ?_⟩
  have h := (c4_amended [{ id := 1, title := "A" }, { id := 2, title := "B" }]
    (fun i => if i = 1 then FetchOutcome.resp 200 (.asList [{ id := 10, title := "t", done := false, project_id := 0 }, { id := 11, title := "u", done := true, project_id := 0 }]) else .resp 500 (.asList [{ id := 12, title := "v", done := false, project_id := 0 }]))).2 (by decide)
  rw [h]
  rfl

/-- The 12-task list of the claim's concrete scenario. -/
def tasks12 : List TaskT :=
  (List.range 12).map (fun i => { id := i + 1, title := "", done := false, project_id := 0 })

/-- C6: pagination.  The empty-task case short-circuits to the empty message
before the page formula runs; otherwise total pages is `(n-1)//5 + 1`, equal
to `ceil(n/5)`, page `p` holds exactly the tasks at indices `5p .. 5p+4`, a
prev control is rendered iff `p > 0` and a next control iff
`p < totalPages - 1`; for 12 tasks: 3 pages, page 0 shows tasks 1-5 with only
next, page 2 shows tasks 11-12 with only prev. -/
theorem c6_pagination (active_tasks : List TaskT) (pageNum : Nat) :
    (show_task_page pageNum active_tasks = .emptyMsg ↔ active_tasks = []) ∧
      (active_tasks ≠ [] →
        show_task_page pageNum active_tasks =
          .page ((active_tasks.length - 1) / 5 + 1)
            ((active_tasks.drop (pageNum * 5)).take 5)
            (decide (0 < pageNum))
            (decide (pageNum < (active_tasks.length - 1) / 5 + 1 - 1)) ∧
        (active_tasks.length - 1) / 5 + 1 = (active_tasks.length + 4) / 5 ∧
        ∀ i, ((active_tasks.drop (pageNum * 5)).take 5)[i]? =
          if i < 5 then active_tasks[pageNum * 5 + i]? else none) ∧
      show_task_page 0 tasks12 = .page 3 (tasks12.take 5) false true ∧
      show_task_page 2 tasks12 =
        .page 3 [{ id := 11, title := "", done := false, project_id := 0 },
                 { id := 12, title := "", done := false, project_id := 0 }] true false := by
  refine ⟨?_, ?_, by decide, by decide⟩
  · unfold show_task_page
    by_cases he : active_tasks.isEmpty = true
    · rw [if_pos he]
      simp [List.isEmpty_iff.1 he]
    · rw [if_neg he]
      constructor
      · intro h
        exact absurd h (by simp)
      · intro h
        rw [h] at he
        exact absurd rfl he
  · intro hne
    refine ⟨?_, by have := List.length_pos.2 hne; omega, ?_⟩
    · unfold show_task_page
      rw [if_neg (by simpa [List.isEmpty_iff] using hne)]
      rfl
    · intro i
      by_cases hi : i < 5
      · rw [if_pos hi, List.getElem?_take_of_lt hi, List.getElem?_drop]
      · rw [if_neg hi]
        refine List.getElem?_eq_none ?_
        calc ((active_tasks.drop (pageNum * 5)).take 5).length ≤ 5 := by
              simp
          _ ≤ i := by omega

/-- C6 witness: the pagination theorem applied to the 12-task list at
page 2. -/
theorem c6_pagination_witness :
    tasks12 ≠ [] ∧
      show_task_page 2 tasks12 =
        .page ((tasks12.length - 1) / 5 + 1) ((tasks12.drop (2 * 5)).take 5)
          (decide (0 < 2)) (decide (2 < (tasks12.length - 1) / 5 + 1 - 1)) :=
  ⟨by decide, ((c6_pagination tasks12 2).2.1 (by decide)).1⟩

/-- C7 counterexample: when a project name *is* parsed but matches nothing in
the cache, the code keeps the default id 1 — it does not fall back to the
first cached project (id 5) as the claim states. -/
theorem c7_counterexample :
    resolveProjectId (some "Foo") [{ id := 5, title := "Bar" }] = 1 ∧ (1 : Nat) ≠ 5 :=
  ⟨rfl, by decide⟩

/-- C7 (amended): a parsed project name is resolved case-insensitively
against the cache; if it matches, that project's id is used, and if it
matches nothing the DEFAULT id 1 is used (no first-project fallback).  Only
when no project name was parsed does the first cached project win, with id 1
when the cache is empty. -/
theorem c7_amended (name : String) (projects : List ProjectT) :
    (∀ p, get_project_by_name name projects = some p →
        resolveProjectId (some name) projects = p.id ∧ lowerStr p.title = lowerStr name) ∧
      (get_project_by_name name projects = none →
        resolveProjectId (some name) projects = 1 ∧
          ∀ p ∈ projects, lowerStr p.title ≠ lowerStr name) ∧
      (∀ (p : ProjectT) (ps : List ProjectT), resolveProjectId none (p :: ps) = p.id) ∧
      resolveProjectId none [] = 1 := by
  refine ⟨?_, ?_, fun p ps => rfl, rfl⟩
  · intro p hp
    constructor
    · unfold resolveProjectId
      dsimp only
      rw [hp]
    · have := List.find?_some hp
      simpa using this
  · intro hn
    constructor
    · unfold resolveProjectId
      dsimp only
      rw [hn]
    · intro p hp
      have := List.find?_eq_none.1 hn p hp
      simpa using this

/-- C7 witness: the amended theorem applied to a cache containing `HOME`
looked up as `home` — the case-insensitive match resolves to its id. -/
theorem c7_amended_witness :
    get_project_by_name "home" [{ id := 3, title := "HOME" }] = some { id := 3, title := "HOME" } ∧
      resolveProjectId (some "home") [{ id := 3, title := "HOME" }] = 3 :=
  ⟨rfl, ((c7_amended "home" [{ id := 3, title := "HOME" }]).1 { id := 3, title := "HOME" } rfl).1⟩

/-! ### Helper lemma: deleting one key leaves every other key's lookup -/

theorem find?_filter_ne (cid k : String) (hne : k ≠ cid) :
    ∀ d : List (String × Cred),
      (d.filter (fun kv => kv.1 != cid)).find? (fun kv => kv.1 == k) =
        d.find? (fun kv => kv.1 == k) := by
  intro d
  induction d with
  | nil => rfl
  | cons kv d' ih =>
    by_cases hkv : kv.1 = cid
    · rw [List.filter_cons, if_neg (by simp [hkv])]
      rw [List.find?_cons_of_neg _ (by simp [hkv]; exact fun h => hne h.symm), ih]
    · rw [List.filter_cons, if_pos (by simp [hkv])]
      by_cases hpk : kv.1 = k
      · rw [List.find?_cons_of_pos _ (by simp [hpk]), List.find?_cons_of_pos _ (by simp [hpk])]
      · rw [List.find?_cons_of_neg _ (by simp [hpk]), List.find?_cons_of_neg _ (by simp [hpk]), ih]

/-- C9: `delete_saved_credentials` removes only the given chat's record.  If
the record is absent everything is unchanged; if it was the last record the
persisted file is removed entirely; otherwise the trimmed document is
rewritten with owner-only permission (0o600 = 384), the deleted chat no
longer resolves, and every other chat's record resolves exactly as before. -/
theorem c9_delete_credentials (cid : String) (fs : Option FileData) :
    ((load_saved_credentials fs).find? (fun kv => kv.1 == cid) = none →
        delete_saved_credentials cid fs = fs) ∧
      (∀ kv0, (load_saved_credentials fs).find? (fun kv => kv.1 == cid) = some kv0 →
        ((load_saved_credentials fs).filter (fun kv => kv.1 != cid) = [] →
            delete_saved_credentials cid fs = none) ∧
          ∀ fd', delete_saved_credentials cid fs = some fd' →
            fd'.perm = 384 ∧
              fd'.doc = (load_saved_credentials fs).filter (fun kv => kv.1 != cid) ∧
              lookupCred cid fd'.doc = none ∧
              ∀ k, k ≠ cid → lookupCred k fd'.doc = lookupCred k (load_saved_credentials fs)) := by
  constructor
  · intro hn
    unfold delete_saved_credentials
    rw [if_neg (by simp [hn])]
  · intro kv0 hf
    have hsome : ((load_saved_credentials fs).find? (fun kv => kv.1 == cid)).isSome = true := by
      simp [hf]
    constructor
    · intro hempty
      unfold delete_saved_credentials
      rw [if_pos hsome, if_pos (by simp [hempty])]
    · intro fd' hfd
      unfold delete_saved_credentials at hfd
      rw [if_pos hsome] at hfd
      by_cases hemp : ((load_saved_credentials fs).filter (fun kv => kv.1 != cid)).isEmpty = true
      · rw [if_pos hemp] at hfd
        exact absurd hfd (by simp)
      · rw [if_neg hemp] at hfd
        obtain rfl := (Option.some.inj hfd).symm
        refine ⟨rfl, rfl, ?_, ?_⟩
        · unfold lookupCred
          rw [List.find?_eq_none.2]
          · rfl
          · intro kv hkv
            have := List.of_mem_filter hkv
            simpa using this
        · intro k hk
          unfold lookupCred
          rw [find?_filter_ne cid k hk]

/-- C9 witness: deleting chat `"1"` from a two-record document keeps chat
`"2"` intact with permission 0o600; deleting the last record removes the
file; deleting an absent record changes nothing. -/
theorem c9_delete_credentials_witness :
    ((load_saved_credentials (some { doc := [("1", { username := "a", password := "b" }), ("2", { username := "c", password := "d" })], perm := 384 })).find? (fun kv => kv.1 == "1") = some ("1", { username := "a", password := "b" }) ∧
        delete_saved_credentials "1" (some { doc := [("1", { username := "a", password := "b" }), ("2", { username := "c", password := "d" })], perm := 384 }) = some { doc := [("2", { username := "c", password := "d" })], perm := 384 }) ∧
      ∀ fd', delete_saved_credentials "1" (some { doc := [("1", { username := "a", password := "b" }), ("2", { username := "c", password := "d" })], perm := 384 }) = some fd' →
        fd'.perm = 384 ∧
          fd'.doc = (load_saved_credentials (some { doc := [("1", { username := "a", password := "b" }), ("2", { username := "c", password := "d" })], perm := 384 })).filter (fun kv => kv.1 != "1") ∧
          lookupCred "1" fd'.doc = none ∧
          ∀ k, k ≠ "1" → lookupCred k fd'.doc = lookupCred k (load_saved_credentials (some { doc := [("1", { username := "a", password := "b" }), ("2", { username := "c", password := "d" })], perm := 384 })) :=
  ⟨⟨rfl, rfl⟩,
    ((c9_delete_credentials "1" (some { doc := [("1", { username := "a", password := "b" }), ("2", { username := "c", password := "d" })], perm := 384 })).2
      ("1", { username := "a", password := "b" }) rfl).2⟩

/-- C10 counterexample: the due-date edit handler is not a two-way choice
between advancing and re-prompting.  On the input `"1/13/2025"` (not
`'none'`) the slash date pattern matches but `datetime(2025, 13, 1)` raises
inside the parser, so the handler raises instead of returning to the list
view or re-prompting in `TaskEditDue`. -/
theorem c10_counterexample :
    handle_task_due_date_update rd0 ("1/13/2025".data) (.status 200) = .error .valueError ∧
      (Except.error PyErr.valueError : Except PyErr ConvState) ≠ .ok .taskListView ∧
      (Except.error PyErr.valueError : Except PyErr ConvState) ≠ .ok .taskEditDue :=
  ⟨rfl, by simp, by simp⟩

/-- C10 (amended): the handler lowercases its input; `'none'` (in any case)
always returns to the task-list view, as does any input the quick-add parser
assigns a due date to — in both cases regardless of the remote update's
outcome (success, non-2xx status or raised transport exception); non-`'none'`
input with no parsed date stays in `TaskEditDue`; and input on which the
parser itself raises (an invalid matched date) propagates the exception. -/
theorem c10_amended (today : Nat) (text : List Char) (post post' : PostOutcome) :
    (text.map lowerChar = ("none".data) →
        handle_task_due_date_update today text post = .ok .taskListView) ∧
      (text.map lowerChar ≠ ("none".data) →
        (∀ p, parse_vikunja_task_format today (text.map lowerChar) = .ok p →
          (p.due_date ≠ none →
            handle_task_due_date_update today text post = .ok .taskListView) ∧
          (p.due_date = none →
            handle_task_due_date_update today text post = .ok .taskEditDue)) ∧
        (∀ e, parse_vikunja_task_format today (text.map lowerChar) = .error e →
          handle_task_due_date_update today text post = .error e)) ∧
      handle_task_due_date_update today text post =
        handle_task_due_date_update today text post' := by
  have hstep : ∀ q : PostOutcome, handle_task_due_date_update today text q =
      (if text.map lowerChar = ("none".data) then .ok .taskListView
       else
         match parse_vikunja_task_format today (text.map lowerChar) with
         | .error e => .error e
         | .ok parsed =>
           match parsed.due_date with
           | some _ => .ok .taskListView
           | none => .ok .taskEditDue) := by
    intro q
    unfold handle_task_due_date_update
    by_cases hn : text.map lowerChar = ("none".data)
    · rw [if_pos hn]
    · rw [if_neg hn]
  refine ⟨?_, ?_, ?_⟩
  · intro h
    rw [hstep post, if_pos h]
  · intro hn
    constructor
    · intro p hp
      constructor
      · intro hd
        rw [hstep post, if_neg hn, hp]
        dsimp only
        rcases hdd : p.due_date with _ | d
        · exact absurd hdd hd
        · rfl
      · intro hd
        rw [hstep post, if_neg hn, hp]
        dsimp only
        rw [hd]
    · intro e he
      rw [hstep post, if_neg hn, he]
  · rw [hstep post, hstep post']

/-- C10 witness: `'NONE'` (uppercase) returns to the list view even when the
remote update raises, and `"tomorrow"` parses to a date and returns to the
list view even when the update returns HTTP 500. -/
theorem c10_amended_witness :
    ("NONE".data).map lowerChar = ("none".data) ∧
      handle_task_due_date_update rd0 ("NONE".data) .exc = .ok .taskListView ∧
      handle_task_due_date_update rd0 ("tomorrow".data) (.status 500) = .ok .taskListView :=
  ⟨rfl, (c10_amended rd0 ("NONE".data) .exc .exc).1 rfl, rfl⟩
